import Mathlib

/-!
Verification of `tools/scripts/compute_fan_delays.py` (Home-Automation HV3.0,
firmware FV5.0.0): the phase-angle power model `P_of_alpha`, its bisection
inverse `alpha_from_P`, and the two delay-table pipelines `compute_delays`
(level table) and `format_delay_from_percent_array` (percent table).

The Python floats are modelled by real numbers; Python's `round` (round half
to even) is modelled exactly by `pyround`.  `compute_delays` returns
`Option (List ℤ)`: `none` models the `ZeroDivisionError` raised when
`levels = 1` (the only input on which `(levels - 1)` is a zero divisor and
the loop body runs).
-/

namespace FanDelays

open Real

/-- Source constant `HALF_CYCLE_US = 10000.0`. -/
def HALF_CYCLE_US : ℝ := 10000

/-- Source constant `MIN_DELAY_US = 50`. -/
def MIN_DELAY_US : ℤ := 50

/-- Source constant `MAX_DELAY_US = 9500`. -/
def MAX_DELAY_US : ℤ := 9500

/-- Source constant `N = 9` (number of fan levels). -/
def N : ℕ := 9

/-- Source constant `MIN_P = 0.05` (minimum conduction power for level 1). -/
def MIN_P : ℝ := 0.05

/-- `P_of_alpha` from the source:
`return 1.0 - alpha/math.pi + math.sin(2*alpha)/(2.0*math.pi)`. -/
noncomputable def P_of_alpha (alpha : ℝ) : ℝ :=
  1 - alpha / π + Real.sin (2 * alpha) / (2 * π)

/-- One iteration of the bisection loop of `alpha_from_P`:
`mid = (lo+hi)/2; if P_of_alpha(mid) > P: lo = mid else: hi = mid`. -/
noncomputable def bisectStep (P : ℝ) (s : ℝ × ℝ) : ℝ × ℝ :=
  if P_of_alpha ((s.1 + s.2) / 2) > P then ((s.1 + s.2) / 2, s.2)
  else (s.1, (s.1 + s.2) / 2)

/-- The `(lo, hi)` state of the bisection loop of `alpha_from_P` after `n`
iterations, starting from `lo = 0.0, hi = math.pi`. -/
noncomputable def bisectState (P : ℝ) : ℕ → ℝ × ℝ
  | 0 => (0, π)
  | n + 1 => bisectStep P (bisectState P n)

/-- `alpha_from_P` from the source: 50 bisection iterations over `[0, π]`,
returning `(lo+hi)/2.0`. -/
noncomputable def alpha_from_P (P : ℝ) : ℝ :=
  ((bisectState P 50).1 + (bisectState P 50).2) / 2

/-- Python's built-in `round`: round half to even (banker's rounding). -/
noncomputable def pyround (x : ℝ) : ℤ :=
  if Int.fract x = 1 / 2 then (if Even ⌊x⌋ then ⌊x⌋ else ⌊x⌋ + 1) else round x

/-- The two clamping `if`s of `compute_delays`, applied to the real (float)
delay value before rounding:
`if delay_us < MIN_DELAY_US: delay_us = MIN_DELAY_US;
 if delay_us > MAX_DELAY_US: delay_us = MAX_DELAY_US`. -/
noncomputable def clamp_us (x : ℝ) : ℝ :=
  if (if x < (MIN_DELAY_US : ℝ) then (MIN_DELAY_US : ℝ) else x) > (MAX_DELAY_US : ℝ)
  then (MAX_DELAY_US : ℝ)
  else (if x < (MIN_DELAY_US : ℝ) then (MIN_DELAY_US : ℝ) else x)

/-- Delay conversion of the level-table pipeline (`compute_delays`):
`delay_us = alpha * half_cycle_us / math.pi`, clamp the float, then
`round(delay_us)`. -/
noncomputable def delay_clamp_round (alpha half_cycle_us : ℝ) : ℤ :=
  pyround (clamp_us (alpha * half_cycle_us / π))

/-- The two clamping `if`s of `format_delay_from_percent_array`, applied to
the already-rounded integer delay. -/
def clamp_int (d : ℤ) : ℤ :=
  if (if d < MIN_DELAY_US then MIN_DELAY_US else d) > MAX_DELAY_US then MAX_DELAY_US
  else (if d < MIN_DELAY_US then MIN_DELAY_US else d)

/-- Delay conversion of the percent-table pipeline
(`format_delay_from_percent_array`): `delay_us = round(alpha * half_cycle_us
/ math.pi)`, then clamp the rounded integer. -/
noncomputable def delay_round_clamp (alpha half_cycle_us : ℝ) : ℤ :=
  clamp_int (pyround (alpha * half_cycle_us / π))

/-- `compute_delays(levels, min_power, half_cycle_us)` from the source.
Level `level ∈ 1..levels` has target power
`P = min_power + (level-1) * ((1.0-min_power)/(levels-1))`; the map index is
`i = level - 1`.  `none` models the `ZeroDivisionError` raised when
`levels = 1`; for `levels = 0` the loop body never runs and the result is the
empty list, exactly as in Python. -/
noncomputable def compute_delays (levels : ℕ) (min_power half_cycle_us : ℝ) :
    Option (List ℤ) :=
  if levels = 1 then none
  else some ((List.range levels).map fun i : ℕ =>
    delay_clamp_round
      (alpha_from_P (min_power + (i : ℝ) * ((1 - min_power) / ((levels : ℝ) - 1))))
      half_cycle_us)

/-- The 101-entry table of `format_delay_from_percent_array`: entry `p` for
`p ∈ 0..100` uses target power `P = p / 100.0`. -/
noncomputable def delay_from_percent_table (half_cycle_us : ℝ) : List ℤ :=
  (List.range 101).map fun p : ℕ =>
    delay_round_clamp (alpha_from_P ((p : ℝ) / 100)) half_cycle_us

/-! ### Elementary facts about the power function -/

lemma P_of_alpha_zero : P_of_alpha 0 = 1 := by
  simp [P_of_alpha]

lemma P_of_alpha_pi : P_of_alpha π = 0 := by
  have h : Real.sin (2 * π) = 0 := Real.sin_two_pi
  have hπ : π ≠ 0 := Real.pi_ne_zero
  simp [P_of_alpha, h, div_self hπ]

lemma P_of_alpha_lt_one {a : ℝ} (ha : 0 < a) : P_of_alpha a < 1 := by
  have hπ : (0 : ℝ) < π := Real.pi_pos
  have hπ0 : π ≠ 0 := Real.pi_ne_zero
  have hs : Real.sin (2 * a) < 2 * a := Real.sin_lt (by linarith)
  have h2 : (0 : ℝ) < 2 * π := by linarith
  have h1 : Real.sin (2 * a) / (2 * π) < 2 * a / (2 * π) := by gcongr
  have h3 : 2 * a / (2 * π) = a / π := by
    field_simp
    ring
  unfold P_of_alpha
  rw [h3] at h1
  linarith

/-- Evaluation of the power function at a rational multiple of `π`. -/
lemma P_of_alpha_mul_pi (t : ℝ) :
    P_of_alpha (t * π) = 1 - t + Real.sin (2 * t * π) / (2 * π) := by
  have h1 : 2 * (t * π) = 2 * t * π := by ring
  unfold P_of_alpha
  rw [h1, mul_div_assoc, div_self Real.pi_ne_zero, mul_one]

lemma P_of_alpha_hasDerivAt (a : ℝ) :
    HasDerivAt P_of_alpha ((Real.cos (2 * a) - 1) / π) a := by
  have h1 : HasDerivAt (fun x : ℝ => 2 * x) 2 a := by
    simpa using (hasDerivAt_id a).const_mul (2 : ℝ)
  have h2 : HasDerivAt (fun x : ℝ => Real.sin (2 * x)) (Real.cos (2 * a) * 2) a :=
    (Real.hasDerivAt_sin (2 * a)).comp a h1
  have h3 : HasDerivAt (fun x : ℝ => Real.sin (2 * x) / (2 * π))
      (Real.cos (2 * a) * 2 / (2 * π)) a := h2.div_const (2 * π)
  have h4 : HasDerivAt (fun x : ℝ => 1 - x / π) (-(1 / π)) a := by
    simpa using ((hasDerivAt_id a).div_const π).const_sub 1
  have h5 := h4.add h3
  have hfun : (fun x : ℝ => 1 - x / π + Real.sin (2 * x) / (2 * π)) = P_of_alpha := by
    funext x
    unfold P_of_alpha
    ring
  have hval : -(1 / π) + Real.cos (2 * a) * 2 / (2 * π) = (Real.cos (2 * a) - 1) / π := by
    have hπ0 : π ≠ 0 := Real.pi_ne_zero
    field_simp
    ring
  rw [hfun, hval] at h5
  exact h5

lemma P_of_alpha_strictAntiOn : StrictAntiOn P_of_alpha (Set.Icc 0 π) := by
  apply strictAntiOn_of_deriv_neg (convex_Icc 0 π)
  · exact fun x _ => (P_of_alpha_hasDerivAt x).continuousAt.continuousWithinAt
  · intro x hx
    rw [interior_Icc] at hx
    rw [(P_of_alpha_hasDerivAt x).deriv]
    have hsin : 0 < Real.sin x := Real.sin_pos_of_pos_of_lt_pi hx.1 hx.2
    have hπ : (0 : ℝ) < π := Real.pi_pos
    have hcos : Real.cos (2 * x) = 1 - 2 * Real.sin x ^ 2 := by
      rw [Real.cos_two_mul', Real.cos_sq']
      ring
    rw [hcos]
    have h1 : 0 < 2 * Real.sin x ^ 2 / π := by positivity
    have h2 : (1 - 2 * Real.sin x ^ 2 - 1) / π = -(2 * Real.sin x ^ 2 / π) := by ring
    rw [h2]
    linarith

lemma P_of_alpha_antitoneOn : AntitoneOn P_of_alpha (Set.Icc 0 π) :=
  P_of_alpha_strictAntiOn.antitoneOn

lemma P_of_alpha_mem_Icc {a : ℝ} (h : a ∈ Set.Icc 0 π) :
    0 ≤ P_of_alpha a ∧ P_of_alpha a ≤ 1 := by
  have h0 : (0 : ℝ) ∈ Set.Icc (0 : ℝ) π := Set.left_mem_Icc.2 Real.pi_pos.le
  have hπ : π ∈ Set.Icc (0 : ℝ) π := Set.right_mem_Icc.2 Real.pi_pos.le
  constructor
  · have := P_of_alpha_antitoneOn h hπ h.2
    rw [P_of_alpha_pi] at this
    exact this
  · have := P_of_alpha_antitoneOn h0 h h.1
    rw [P_of_alpha_zero] at this
    exact this

lemma abs_sin_sub_sin_le (a b : ℝ) : |Real.sin a - Real.sin b| ≤ |a - b| := by
  rw [Real.sin_sub_sin, abs_mul, abs_mul]
  have h1 : |Real.sin ((a - b) / 2)| ≤ |(a - b) / 2| := Real.abs_sin_le_abs
  have h2 : |Real.cos ((a + b) / 2)| ≤ 1 := Real.abs_cos_le_one _
  have h3 : |(2 : ℝ)| = 2 := by norm_num
  calc |(2 : ℝ)| * |Real.sin ((a - b) / 2)| * |Real.cos ((a + b) / 2)|
      ≤ |(2 : ℝ)| * |(a - b) / 2| * 1 := by
        apply mul_le_mul _ h2 (abs_nonneg _) (by positivity)
        exact mul_le_mul_of_nonneg_left h1 (abs_nonneg _)
    _ = |a - b| := by
        rw [h3, mul_one, abs_div]
        norm_num
        ring

/-- The power function is Lipschitz with constant `2/π`: one-sided form. -/
lemma P_of_alpha_sub_le {x y : ℝ} (h : x ≤ y) :
    P_of_alpha x - P_of_alpha y ≤ 2 / π * (y - x) := by
  have hπ : (0 : ℝ) < π := Real.pi_pos
  have hπ0 : π ≠ 0 := Real.pi_ne_zero
  have hs := abs_sin_sub_sin_le (2 * x) (2 * y)
  have habs : |2 * x - 2 * y| = 2 * (y - x) := by
    rw [abs_of_nonpos (by linarith)]
    ring
  rw [habs] at hs
  have h1 : Real.sin (2 * x) - Real.sin (2 * y) ≤ 2 * (y - x) :=
    (abs_le.1 hs).2
  unfold P_of_alpha
  have expand : 1 - x / π + Real.sin (2 * x) / (2 * π) -
      (1 - y / π + Real.sin (2 * y) / (2 * π)) =
      ((y - x) + (Real.sin (2 * x) - Real.sin (2 * y)) / 2) / π := by
    field_simp
    ring
  rw [expand, div_le_iff hπ]
  have h2 : 2 / π * (y - x) * π = 2 * (y - x) := by field_simp
  rw [h2]
  linarith

/-! ### Invariants of the bisection loop -/

lemma bisectState_succ (P : ℝ) (n : ℕ) :
    bisectState P (n + 1) = bisectStep P (bisectState P n) := rfl

lemma bisectStep_pair (P lo hi : ℝ) :
    bisectStep P (lo, hi) =
      if P_of_alpha ((lo + hi) / 2) > P then ((lo + hi) / 2, hi)
      else (lo, (lo + hi) / 2) := rfl

lemma bisect_bounds (P : ℝ) (k : ℕ) :
    0 ≤ (bisectState P k).1 ∧ (bisectState P k).1 ≤ (bisectState P k).2 ∧
      (bisectState P k).2 ≤ π := by
  induction k with
  | zero => exact ⟨le_refl 0, Real.pi_pos.le, le_refl π⟩
  | succ n ih =>
    obtain ⟨h0, h1, h2⟩ := ih
    rw [bisectState_succ]
    unfold bisectStep
    by_cases hc : P_of_alpha (((bisectState P n).1 + (bisectState P n).2) / 2) > P
    · rw [if_pos hc]
      exact ⟨by linarith, by linarith, h2⟩
    · rw [if_neg hc]
      exact ⟨h0, by linarith, by linarith⟩

lemma bisect_width (P : ℝ) (k : ℕ) :
    (bisectState P k).2 - (bisectState P k).1 = π / 2 ^ k := by
  induction k with
  | zero => simp [bisectState]
  | succ n ih =>
    rw [bisectState_succ]
    unfold bisectStep
    have h2 : (π : ℝ) / 2 ^ (n + 1) = π / 2 ^ n / 2 := by
      rw [pow_succ]
      ring
    by_cases hc : P_of_alpha (((bisectState P n).1 + (bisectState P n).2) / 2) > P
    · rw [if_pos hc]
      simp only
      rw [h2, ← ih]
      ring
    · rw [if_neg hc]
      simp only
      rw [h2, ← ih]
      ring

lemma bisect_bracket {P : ℝ} (h0 : 0 ≤ P) (h1 : P ≤ 1) (k : ℕ) :
    P_of_alpha (bisectState P k).2 ≤ P ∧ P ≤ P_of_alpha (bisectState P k).1 := by
  induction k with
  | zero =>
    constructor
    · show P_of_alpha π ≤ P
      rw [P_of_alpha_pi]
      exact h0
    · show P ≤ P_of_alpha 0
      rw [P_of_alpha_zero]
      exact h1
  | succ n ih =>
    obtain ⟨ha, hb⟩ := ih
    rw [bisectState_succ]
    unfold bisectStep
    by_cases hc : P_of_alpha (((bisectState P n).1 + (bisectState P n).2) / 2) > P
    · rw [if_pos hc]
      exact ⟨ha, le_of_lt hc⟩
    · rw [if_neg hc]
      exact ⟨le_of_not_lt hc, hb⟩

lemma alpha_from_P_eq_lo (P : ℝ) :
    alpha_from_P P = (bisectState P 50).1 + π / 2 ^ 51 := by
  have hw := bisect_width P 50
  have h2 : (π : ℝ) / 2 ^ 51 = π / 2 ^ 50 / 2 := by
    rw [pow_succ]
    ring
  unfold alpha_from_P
  rw [h2, ← hw]
  ring

lemma alpha_from_P_eq_hi (P : ℝ) :
    alpha_from_P P = (bisectState P 50).2 - π / 2 ^ 51 := by
  have hw := bisect_width P 50
  have h2 : (π : ℝ) / 2 ^ 51 = π / 2 ^ 50 / 2 := by
    rw [pow_succ]
    ring
  unfold alpha_from_P
  rw [h2, ← hw]
  ring

lemma alpha_from_P_mem (P : ℝ) : 0 ≤ alpha_from_P P ∧ alpha_from_P P ≤ π := by
  obtain ⟨h0, h1, h2⟩ := bisect_bounds P 50
  unfold alpha_from_P
  constructor <;> [skip; skip] <;> linarith

/-- If the target power exceeds the power at an angle `c`, the bisection
result lies below `c` (up to the final half-width). -/
lemma alpha_from_P_lt {P c : ℝ} (h0 : 0 ≤ P) (h1 : P ≤ 1)
    (hc : c ∈ Set.Icc 0 π) (h : P_of_alpha c < P) :
    alpha_from_P P < c + π / 2 ^ 51 := by
  obtain ⟨hb0, hb1, hb2⟩ := bisect_bounds P 50
  have hbr := (bisect_bracket h0 h1 50).2
  have hlo : (bisectState P 50).1 < c := by
    by_contra hcon
    push_neg at hcon
    have hmemlo : (bisectState P 50).1 ∈ Set.Icc (0 : ℝ) π := ⟨hb0, by linarith⟩
    have := P_of_alpha_antitoneOn hc hmemlo hcon
    linarith
  rw [alpha_from_P_eq_lo]
  linarith

/-- If the target power is below the power at an angle `c`, the bisection
result lies above `c` (up to the final half-width). -/
lemma alpha_from_P_gt {P c : ℝ} (h0 : 0 ≤ P) (h1 : P ≤ 1)
    (hc : c ∈ Set.Icc 0 π) (h : P < P_of_alpha c) :
    c - π / 2 ^ 51 < alpha_from_P P := by
  obtain ⟨hb0, hb1, hb2⟩ := bisect_bounds P 50
  have hbr := (bisect_bracket h0 h1 50).1
  have hhi : c < (bisectState P 50).2 := by
    by_contra hcon
    push_neg at hcon
    have hmemhi : (bisectState P 50).2 ∈ Set.Icc (0 : ℝ) π := ⟨by linarith, hb2⟩
    have := P_of_alpha_antitoneOn hmemhi hc hcon
    linarith
  rw [alpha_from_P_eq_hi]
  linarith

/-- At equal iteration counts, two bisection runs with ordered targets have
either identical states or fully ordered intervals. -/
lemma bisect_ordered {P1 P2 : ℝ} (h : P1 ≤ P2) (k : ℕ) :
    bisectState P1 k = bisectState P2 k ∨
      (bisectState P2 k).2 ≤ (bisectState P1 k).1 := by
  induction k with
  | zero => exact Or.inl rfl
  | succ n ih =>
    obtain ⟨ha0, ha1, ha2⟩ := bisect_bounds P1 n
    obtain ⟨hb0, hb1, hb2⟩ := bisect_bounds P2 n
    rcases ih with heq | hord
    · rw [bisectState_succ, bisectState_succ, heq]
      unfold bisectStep
      by_cases hc1 : P_of_alpha (((bisectState P2 n).1 + (bisectState P2 n).2) / 2) > P1
      · by_cases hc2 : P_of_alpha (((bisectState P2 n).1 + (bisectState P2 n).2) / 2) > P2
        · rw [if_pos hc1, if_pos hc2]
          exact Or.inl rfl
        · rw [if_pos hc1, if_neg hc2]
          exact Or.inr (le_refl _)
      · have hc2 : ¬ P_of_alpha (((bisectState P2 n).1 + (bisectState P2 n).2) / 2) > P2 := by
          push_neg at hc1 ⊢
          linarith
        rw [if_neg hc1, if_neg hc2]
        exact Or.inl rfl
    · right
      rw [bisectState_succ, bisectState_succ]
      unfold bisectStep
      by_cases hc1 : P_of_alpha (((bisectState P1 n).1 + (bisectState P1 n).2) / 2) > P1 <;>
        by_cases hc2 : P_of_alpha (((bisectState P2 n).1 + (bisectState P2 n).2) / 2) > P2 <;>
        [rw [if_pos hc1, if_pos hc2]; rw [if_pos hc1, if_neg hc2];
         rw [if_neg hc1, if_pos hc2]; rw [if_neg hc1, if_neg hc2]] <;>
        simp only <;> linarith

/-- The bisection inverse is antitone in the target power. -/
lemma alpha_from_P_antitone {P1 P2 : ℝ} (h : P1 ≤ P2) :
    alpha_from_P P2 ≤ alpha_from_P P1 := by
  obtain ⟨ha0, ha1, ha2⟩ := bisect_bounds P1 50
  obtain ⟨hb0, hb1, hb2⟩ := bisect_bounds P2 50
  unfold alpha_from_P
  rcases bisect_ordered h 50 with heq | hord
  · rw [heq]
  · linarith

/-- For target power at least 1, every bisection step keeps `lo = 0`. -/
lemma bisectState_of_one_le {P : ℝ} (h : 1 ≤ P) (k : ℕ) :
    bisectState P k = (0, π / 2 ^ k) := by
  induction k with
  | zero => simp [bisectState]
  | succ n ih =>
    rw [bisectState_succ, ih, bisectStep_pair]
    have hmid : ((0 : ℝ) + π / 2 ^ n) / 2 = π / 2 ^ (n + 1) := by
      rw [pow_succ]
      ring
    have hpos : (0 : ℝ) < π / 2 ^ (n + 1) := by positivity
    have hlt : P_of_alpha (((0 : ℝ) + π / 2 ^ n) / 2) < 1 := by
      rw [hmid]
      exact P_of_alpha_lt_one hpos
    rw [if_neg (by push_neg; linarith), hmid]

lemma alpha_from_P_of_one_le {P : ℝ} (h : 1 ≤ P) :
    alpha_from_P P = π / 2 ^ 51 := by
  unfold alpha_from_P
  rw [bisectState_of_one_le h 50]
  simp only
  rw [pow_succ]
  ring

/-- For target power 0, every bisection step keeps `hi = π`. -/
lemma bisectState_zero_target (k : ℕ) :
    bisectState 0 k = (π - π / 2 ^ k, π) := by
  induction k with
  | zero => simp [bisectState]
  | succ n ih =>
    rw [bisectState_succ, ih, bisectStep_pair]
    have hmid : ((π - π / 2 ^ n) + π) / 2 = π - π / 2 ^ (n + 1) := by
      rw [pow_succ]
      ring
    have hππ : (0 : ℝ) < π := Real.pi_pos
    have hlt : π - π / 2 ^ (n + 1) < π := by
      have : (0 : ℝ) < π / 2 ^ (n + 1) := by positivity
      linarith
    have hgt : 0 < π - π / 2 ^ (n + 1) := by
      have h1 : π / 2 ^ (n + 1) ≤ π / 2 := by
        apply div_le_div_of_nonneg_left hππ.le (by norm_num)
        calc (2 : ℝ) = 2 ^ 1 := by norm_num
          _ ≤ 2 ^ (n + 1) := by
              apply pow_le_pow_right (by norm_num)
              omega
      linarith
    have hmem : π - π / 2 ^ (n + 1) ∈ Set.Icc (0 : ℝ) π := ⟨hgt.le, hlt.le⟩
    have hπmem : π ∈ Set.Icc (0 : ℝ) π := Set.right_mem_Icc.2 hππ.le
    have hpos : (0 : ℝ) < P_of_alpha (π - π / 2 ^ (n + 1)) := by
      have := P_of_alpha_strictAntiOn hmem hπmem hlt
      rw [P_of_alpha_pi] at this
      exact this
    rw [hmid, if_pos hpos]

lemma alpha_from_P_zero_target : alpha_from_P 0 = π - π / 2 ^ 51 := by
  unfold alpha_from_P
  rw [bisectState_zero_target 50]
  simp only
  rw [pow_succ]
  ring

/-! ### Properties of Python rounding and of the two clamp orders -/

lemma pyround_bounds (x : ℝ) :
    x - 1 / 2 ≤ (pyround x : ℝ) ∧ (pyround x : ℝ) ≤ x + 1 / 2 := by
  unfold pyround
  by_cases hf : Int.fract x = 1 / 2
  · have hx : x = (⌊x⌋ : ℝ) + 1 / 2 := by
      have := Int.fract_add_floor x
      rw [hf] at this
      linarith
    rw [if_pos hf]
    by_cases he : Even ⌊x⌋
    · rw [if_pos he]
      constructor <;> [linarith; linarith]
    · rw [if_neg he]
      push_cast
      constructor <;> [linarith; linarith]
  · rw [if_neg hf]
    have h := abs_le.1 (abs_sub_round x)
    constructor <;> [linarith [h.2]; linarith [h.1]]

lemma pyround_intCast (n : ℤ) : pyround (n : ℝ) = n := by
  unfold pyround
  rw [if_neg, round_intCast]
  rw [Int.fract_intCast]
  norm_num

lemma pyround_mono {x y : ℝ} (h : x ≤ y) : pyround x ≤ pyround y := by
  rcases eq_or_lt_of_le h with rfl | hlt
  · exact le_refl _
  · have hx := (pyround_bounds x).2
    have hy := (pyround_bounds y).1
    have hcast : (pyround x : ℝ) < (pyround y : ℝ) + 1 := by linarith
    have : pyround x < pyround y + 1 := by exact_mod_cast hcast
    omega

lemma clamp_us_eq (x : ℝ) :
    clamp_us x = if x < 50 then 50 else if 9500 < x then 9500 else x := by
  unfold clamp_us
  simp only [MIN_DELAY_US, MAX_DELAY_US]
  push_cast
  split_ifs <;> linarith

lemma clamp_int_eq (d : ℤ) :
    clamp_int d = if d < 50 then 50 else if 9500 < d then 9500 else d := by
  unfold clamp_int
  simp only [MIN_DELAY_US, MAX_DELAY_US]
  split_ifs <;> omega

lemma clamp_us_mem (x : ℝ) : (50 : ℝ) ≤ clamp_us x ∧ clamp_us x ≤ 9500 := by
  rw [clamp_us_eq]
  split_ifs <;> constructor <;> linarith

lemma clamp_us_of_mem {x : ℝ} (h1 : 50 ≤ x) (h2 : x ≤ 9500) : clamp_us x = x := by
  rw [clamp_us_eq, if_neg (by linarith), if_neg (by linarith)]

lemma clamp_us_of_lt {x : ℝ} (h1 : x < 50) : clamp_us x = 50 := by
  rw [clamp_us_eq, if_pos h1]

lemma clamp_us_of_gt {x : ℝ} (h2 : 9500 < x) : clamp_us x = 9500 := by
  rw [clamp_us_eq, if_neg (by linarith), if_pos h2]

lemma clamp_us_mono {x y : ℝ} (h : x ≤ y) : clamp_us x ≤ clamp_us y := by
  rw [clamp_us_eq, clamp_us_eq]
  split_ifs <;> linarith

/-- The two pipelines agree: clamping the real value and then rounding gives
the same integer as rounding first and then clamping the integer (the clamp
bounds are themselves integers). -/
lemma pyround_clamp_comm (x : ℝ) : pyround (clamp_us x) = clamp_int (pyround x) := by
  have hb := pyround_bounds x
  rw [clamp_int_eq]
  by_cases h1 : x < 50
  · have hle : pyround x ≤ 50 := by
      have h51 : (pyround x : ℝ) < 51 := by linarith [hb.2]
      exact_mod_cast Int.lt_add_one_iff.mp (by exact_mod_cast h51)
    rw [clamp_us_of_lt h1]
    have h50 : (50 : ℝ) = ((50 : ℤ) : ℝ) := by norm_num
    rw [h50, pyround_intCast]
    split_ifs <;> omega
  · push_neg at h1
    by_cases h2 : x > 9500
    · have hge : 9500 ≤ pyround x := by
        have h9499 : (9499 : ℝ) < (pyround x : ℝ) := by linarith [hb.1]
        have h9499i : (9499 : ℤ) < pyround x := by exact_mod_cast h9499
        omega
      rw [clamp_us_of_gt h2]
      have h9500 : (9500 : ℝ) = ((9500 : ℤ) : ℝ) := by norm_num
      rw [h9500, pyround_intCast]
      split_ifs <;> omega
    · push_neg at h2
      rw [clamp_us_of_mem h1 h2]
      have hge : 50 ≤ pyround x := by
        have h49 : (49 : ℝ) < (pyround x : ℝ) := by linarith [hb.1]
        have h49i : (49 : ℤ) < pyround x := by exact_mod_cast h49
        omega
      have hle : pyround x ≤ 9500 := by
        have h9501 : (pyround x : ℝ) < 9501 := by linarith [hb.2]
        exact_mod_cast Int.lt_add_one_iff.mp (by exact_mod_cast h9501)
      rw [if_neg (by omega), if_neg (by omega)]

lemma delay_clamp_round_eq_round_clamp (alpha half_cycle_us : ℝ) :
    delay_clamp_round alpha half_cycle_us = delay_round_clamp alpha half_cycle_us := by
  unfold delay_clamp_round delay_round_clamp
  exact pyround_clamp_comm _

lemma delay_clamp_round_mem (alpha half_cycle_us : ℝ) :
    50 ≤ delay_clamp_round alpha half_cycle_us ∧
      delay_clamp_round alpha half_cycle_us ≤ 9500 := by
  unfold delay_clamp_round
  obtain ⟨hc1, hc2⟩ := clamp_us_mem (alpha * half_cycle_us / π)
  obtain ⟨hp1, hp2⟩ := pyround_bounds (clamp_us (alpha * half_cycle_us / π))
  constructor
  · have h49 : (49 : ℝ) < (pyround (clamp_us (alpha * half_cycle_us / π)) : ℝ) := by linarith
    have h49i : (49 : ℤ) < pyround (clamp_us (alpha * half_cycle_us / π)) := by exact_mod_cast h49
    omega
  · have h9501 : (pyround (clamp_us (alpha * half_cycle_us / π)) : ℝ) < 9501 := by linarith
    exact_mod_cast Int.lt_add_one_iff.mp (by exact_mod_cast h9501)

lemma delay_clamp_round_mono {a1 a2 h : ℝ} (hh : 0 ≤ h) (ha : a1 ≤ a2) :
    delay_clamp_round a1 h ≤ delay_clamp_round a2 h := by
  unfold delay_clamp_round
  apply pyround_mono
  apply clamp_us_mono
  have hπ : (0 : ℝ) < π := Real.pi_pos
  gcongr

/-! ### Numeric point evaluations of the power function -/

lemma sin_mul_pi_shift (s : ℝ) : Real.sin ((1 + s) * π) = -Real.sin (s * π) := by
  have h : (1 + s) * π = s * π + π := by ring
  rw [h, Real.sin_add, Real.sin_pi, Real.cos_pi]
  ring

lemma sin_mul_pi_flip (s : ℝ) : Real.sin ((1 - s) * π) = Real.sin (s * π) := by
  have h : (1 - s) * π = π - s * π := by ring
  rw [h, Real.sin_pi_sub]

lemma sin_mul_pi_cos (s : ℝ) : Real.sin (s * π) = Real.cos ((1 / 2 - s) * π) := by
  have h : (1 / 2 - s) * π = π / 2 - s * π := by ring
  rw [h, Real.cos_pi_div_two_sub]

lemma lt_P_of_alpha_iff {t P : ℝ} :
    P < P_of_alpha (t * π) ↔ (P - 1 + t) * (2 * π) < Real.sin (2 * t * π) := by
  have hπ : (0 : ℝ) < 2 * π := by positivity
  constructor
  · intro h
    rw [P_of_alpha_mul_pi] at h
    have h1 : P - 1 + t < Real.sin (2 * t * π) / (2 * π) := by linarith
    exact (lt_div_iff hπ).1 h1
  · intro h
    rw [P_of_alpha_mul_pi]
    have h1 : P - 1 + t < Real.sin (2 * t * π) / (2 * π) := (lt_div_iff hπ).2 h
    linarith

lemma P_of_alpha_lt_iff {t P : ℝ} :
    P_of_alpha (t * π) < P ↔ Real.sin (2 * t * π) < (P - 1 + t) * (2 * π) := by
  have hπ : (0 : ℝ) < 2 * π := by positivity
  constructor
  · intro h
    rw [P_of_alpha_mul_pi] at h
    have h1 : Real.sin (2 * t * π) / (2 * π) < P - 1 + t := by linarith
    exact (div_lt_iff hπ).1 h1
  · intro h
    rw [P_of_alpha_mul_pi]
    have h1 : Real.sin (2 * t * π) / (2 * π) < P - 1 + t := (div_lt_iff hπ).2 h
    linarith

lemma P_lb_e0 : (1 / 20 : ℝ) < P_of_alpha ((79 / 100) * π) := by
  rw [lt_P_of_alpha_iff,
    (show (2 : ℝ) * (79 / 100) * π = (1 + 58 / 100 : ℝ) * π by ring), sin_mul_pi_shift,
    (show (58 / 100 : ℝ) * π = (1 - 42 / 100 : ℝ) * π by ring), sin_mul_pi_flip]
  have hs : Real.sin ((42 / 100 : ℝ) * π) ≤ 1 := Real.sin_le_one _
  have hπ := Real.pi_gt_d6
  linarith

lemma P_ub_e0 : P_of_alpha ((81 / 100) * π) < (1 / 20 : ℝ) := by
  rw [P_of_alpha_lt_iff,
    (show (2 : ℝ) * (81 / 100) * π = (1 + 62 / 100 : ℝ) * π by ring), sin_mul_pi_shift,
    (show (62 / 100 : ℝ) * π = (1 - 38 / 100 : ℝ) * π by ring), sin_mul_pi_flip,
    sin_mul_pi_cos]
  have hc : 1 - ((1 / 2 - 38 / 100 : ℝ) * π) ^ 2 / 2 ≤ Real.cos ((1 / 2 - 38 / 100 : ℝ) * π) :=
    Real.one_sub_sq_div_two_le_cos
  have h1 := Real.pi_gt_d6
  have h2 := Real.pi_lt_d6
  nlinarith

lemma P_lb_e1 : (27 / 160 : ℝ) < P_of_alpha ((67 / 100) * π) := by
  rw [lt_P_of_alpha_iff,
    (show (2 : ℝ) * (67 / 100) * π = (1 + 34 / 100 : ℝ) * π by ring), sin_mul_pi_shift]
  have hs : Real.sin ((34 / 100 : ℝ) * π) ≤ 1 := Real.sin_le_one _
  have hπ := Real.pi_gt_d6
  linarith

lemma P_ub_e1 : P_of_alpha ((70 / 100) * π) < (27 / 160 : ℝ) := by
  rw [P_of_alpha_lt_iff,
    (show (2 : ℝ) * (70 / 100) * π = (1 + 40 / 100 : ℝ) * π by ring), sin_mul_pi_shift,
    sin_mul_pi_cos]
  have hc : 1 - ((1 / 2 - 40 / 100 : ℝ) * π) ^ 2 / 2 ≤ Real.cos ((1 / 2 - 40 / 100 : ℝ) * π) :=
    Real.one_sub_sq_div_two_le_cos
  have h1 := Real.pi_gt_d6
  have h2 := Real.pi_lt_d6
  nlinarith

lemma P_lb_e2 : (46 / 160 : ℝ) < P_of_alpha ((60 / 100) * π) := by
  rw [lt_P_of_alpha_iff,
    (show (2 : ℝ) * (60 / 100) * π = (1 + 20 / 100 : ℝ) * π by ring), sin_mul_pi_shift]
  have hs : Real.sin ((20 / 100 : ℝ) * π) ≤ (20 / 100 : ℝ) * π := by
    apply Real.sin_le
    positivity
  have hπ := Real.pi_gt_d6
  linarith

lemma P_ub_e2 : P_of_alpha ((62 / 100) * π) < (46 / 160 : ℝ) := by
  rw [P_of_alpha_lt_iff,
    (show (2 : ℝ) * (62 / 100) * π = (1 + 24 / 100 : ℝ) * π by ring), sin_mul_pi_shift]
  have h1 := Real.pi_gt_d6
  have h2 := Real.pi_lt_d6
  have hx0 : (0 : ℝ) < (24 / 100 : ℝ) * π := by positivity
  have hx1 : (24 / 100 : ℝ) * π ≤ 1 := by nlinarith
  have hs := Real.sin_gt_sub_cube hx0 hx1
  have hπ0 := Real.pi_pos
  have hsq : π ^ 2 < 98697 / 10000 := by nlinarith
  have hcube : π ^ 3 < 3101 / 100 := by nlinarith
  linarith

lemma P_lb_e3 : (65 / 160 : ℝ) < P_of_alpha ((54 / 100) * π) := by
  rw [lt_P_of_alpha_iff,
    (show (2 : ℝ) * (54 / 100) * π = (1 + 8 / 100 : ℝ) * π by ring), sin_mul_pi_shift]
  have hs : Real.sin ((8 / 100 : ℝ) * π) ≤ (8 / 100 : ℝ) * π := by
    apply Real.sin_le
    positivity
  have hπ := Real.pi_gt_d6
  linarith

lemma P_ub_e3 : P_of_alpha ((56 / 100) * π) < (65 / 160 : ℝ) := by
  rw [P_of_alpha_lt_iff,
    (show (2 : ℝ) * (56 / 100) * π = (1 + 12 / 100 : ℝ) * π by ring), sin_mul_pi_shift]
  have h1 := Real.pi_gt_d6
  have h2 := Real.pi_lt_d6
  have hx0 : (0 : ℝ) < (12 / 100 : ℝ) * π := by positivity
  have hx1 : (12 / 100 : ℝ) * π ≤ 1 := by nlinarith
  have hs := Real.sin_gt_sub_cube hx0 hx1
  have hπ0 := Real.pi_pos
  have hsq : π ^ 2 < 98697 / 10000 := by nlinarith
  have hcube : π ^ 3 < 3101 / 100 := by nlinarith
  linarith

lemma P_lb_e4 : (84 / 160 : ℝ) < P_of_alpha ((48 / 100) * π) := by
  rw [lt_P_of_alpha_iff,
    (show (2 : ℝ) * (48 / 100) * π = (1 - 4 / 100 : ℝ) * π by ring), sin_mul_pi_flip]
  have h1 := Real.pi_gt_d6
  have h2 := Real.pi_lt_d6
  have hx0 : (0 : ℝ) < (4 / 100 : ℝ) * π := by positivity
  have hx1 : (4 / 100 : ℝ) * π ≤ 1 := by nlinarith
  have hs := Real.sin_gt_sub_cube hx0 hx1
  have hπ0 := Real.pi_pos
  have hsq : π ^ 2 < 98697 / 10000 := by nlinarith
  have hcube : π ^ 3 < 3101 / 100 := by nlinarith
  linarith

lemma P_ub_e4 : P_of_alpha ((495 / 1000) * π) < (84 / 160 : ℝ) := by
  rw [P_of_alpha_lt_iff,
    (show (2 : ℝ) * (495 / 1000) * π = (1 - 1 / 100 : ℝ) * π by ring), sin_mul_pi_flip]
  have hs : Real.sin ((1 / 100 : ℝ) * π) ≤ (1 / 100 : ℝ) * π := by
    apply Real.sin_le
    positivity
  have hπ := Real.pi_gt_d6
  linarith

lemma P_lb_e5 : (103 / 160 : ℝ) < P_of_alpha ((42 / 100) * π) := by
  rw [lt_P_of_alpha_iff,
    (show (2 : ℝ) * (42 / 100) * π = (1 - 16 / 100 : ℝ) * π by ring), sin_mul_pi_flip]
  have h1 := Real.pi_gt_d6
  have h2 := Real.pi_lt_d6
  have hx0 : (0 : ℝ) < (16 / 100 : ℝ) * π := by positivity
  have hx1 : (16 / 100 : ℝ) * π ≤ 1 := by nlinarith
  have hs := Real.sin_gt_sub_cube hx0 hx1
  have hπ0 := Real.pi_pos
  have hsq : π ^ 2 < 98697 / 10000 := by nlinarith
  have hcube : π ^ 3 < 3101 / 100 := by nlinarith
  linarith

lemma P_ub_e5 : P_of_alpha ((435 / 1000) * π) < (103 / 160 : ℝ) := by
  rw [P_of_alpha_lt_iff,
    (show (2 : ℝ) * (435 / 1000) * π = (1 - 13 / 100 : ℝ) * π by ring), sin_mul_pi_flip]
  have hs : Real.sin ((13 / 100 : ℝ) * π) ≤ (13 / 100 : ℝ) * π := by
    apply Real.sin_le
    positivity
  have hπ := Real.pi_gt_d6
  linarith

lemma P_lb_e6 : (122 / 160 : ℝ) < P_of_alpha ((35 / 100) * π) := by
  rw [lt_P_of_alpha_iff,
    (show (2 : ℝ) * (35 / 100) * π = (1 - 30 / 100 : ℝ) * π by ring), sin_mul_pi_flip,
    sin_mul_pi_cos]
  have hc : 1 - ((1 / 2 - 30 / 100 : ℝ) * π) ^ 2 / 2 ≤ Real.cos ((1 / 2 - 30 / 100 : ℝ) * π) :=
    Real.one_sub_sq_div_two_le_cos
  have h1 := Real.pi_gt_d6
  have h2 := Real.pi_lt_d6
  nlinarith

lemma P_ub_e6 : P_of_alpha ((37 / 100) * π) < (122 / 160 : ℝ) := by
  rw [P_of_alpha_lt_iff,
    (show (2 : ℝ) * (37 / 100) * π = (1 - 26 / 100 : ℝ) * π by ring), sin_mul_pi_flip]
  have hs : Real.sin ((26 / 100 : ℝ) * π) ≤ (26 / 100 : ℝ) * π := by
    apply Real.sin_le
    positivity
  have hπ := Real.pi_gt_d6
  linarith

lemma P_lb_e7 : (141 / 160 : ℝ) < P_of_alpha ((27 / 100) * π) := by
  rw [lt_P_of_alpha_iff,
    (show (2 : ℝ) * (27 / 100) * π = (1 - 46 / 100 : ℝ) * π by ring), sin_mul_pi_flip,
    sin_mul_pi_cos]
  have hc : 1 - ((1 / 2 - 46 / 100 : ℝ) * π) ^ 2 / 2 ≤ Real.cos ((1 / 2 - 46 / 100 : ℝ) * π) :=
    Real.one_sub_sq_div_two_le_cos
  have h1 := Real.pi_gt_d6
  have h2 := Real.pi_lt_d6
  nlinarith

lemma P_ub_e7 : P_of_alpha ((285 / 1000) * π) < (141 / 160 : ℝ) := by
  rw [P_of_alpha_lt_iff,
    (show (2 : ℝ) * (285 / 1000) * π = (1 - 43 / 100 : ℝ) * π by ring), sin_mul_pi_flip]
  have hs : Real.sin ((43 / 100 : ℝ) * π) ≤ 1 := Real.sin_le_one _
  have hπ := Real.pi_gt_d6
  linarith

/-! ### Bounding a table entry between two grid angles -/

lemma pyround_clamp_between {x : ℝ} {lb ub : ℤ}
    (h50 : 51 ≤ lb) (h95 : ub ≤ 9499)
    (hxl : (lb : ℝ) - 1 / 2 < x) (hxu : x < (ub : ℝ) + 1 / 2) :
    lb ≤ pyround (clamp_us x) ∧ pyround (clamp_us x) ≤ ub := by
  have hlbR : (51 : ℝ) ≤ (lb : ℝ) := by exact_mod_cast h50
  have hubR : (ub : ℝ) ≤ 9499 := by exact_mod_cast h95
  have hcl : clamp_us x = x := clamp_us_of_mem (by linarith) (by linarith)
  rw [hcl]
  obtain ⟨hp1, hp2⟩ := pyround_bounds x
  constructor
  · have hR : (lb : ℝ) - 1 < (pyround x : ℝ) := by linarith
    have hZ : lb - 1 < pyround x := by exact_mod_cast hR
    omega
  · have hR : (pyround x : ℝ) < (ub : ℝ) + 1 := by linarith
    have hZ : pyround x < ub + 1 := by exact_mod_cast hR
    omega

/-- If the target power is strictly bracketed by the powers at the grid
angles `lb/10000 * π` and `ub/10000 * π`, the level-pipeline delay at
`half_cycle_us = 10000` lies in `[lb, ub]`. -/
lemma delay_clamp_round_between {P : ℝ} {lb ub : ℤ}
    (h0 : 0 ≤ P) (h1 : P ≤ 1) (h50 : 51 ≤ lb) (hlu : lb ≤ ub) (h95 : ub ≤ 9499)
    (hlb : P < P_of_alpha (((lb : ℝ) / 10000) * π))
    (hub : P_of_alpha (((ub : ℝ) / 10000) * π) < P) :
    lb ≤ delay_clamp_round (alpha_from_P P) 10000 ∧
      delay_clamp_round (alpha_from_P P) 10000 ≤ ub := by
  have hπ : (0 : ℝ) < π := Real.pi_pos
  have hlbR : (51 : ℝ) ≤ (lb : ℝ) := by exact_mod_cast h50
  have hubR : (ub : ℝ) ≤ 9499 := by exact_mod_cast h95
  have hluR : (lb : ℝ) ≤ (ub : ℝ) := by exact_mod_cast hlu
  have hmemlb : ((lb : ℝ) / 10000) * π ∈ Set.Icc 0 π := by
    constructor
    · apply mul_nonneg (by linarith) hπ.le
    · have hle1 : (lb : ℝ) / 10000 ≤ 1 := by linarith
      calc ((lb : ℝ) / 10000) * π ≤ 1 * π := mul_le_mul_of_nonneg_right hle1 hπ.le
        _ = π := one_mul π
  have hmemub : ((ub : ℝ) / 10000) * π ∈ Set.Icc 0 π := by
    constructor
    · apply mul_nonneg (by linarith) hπ.le
    · have hle1 : (ub : ℝ) / 10000 ≤ 1 := by linarith
      calc ((ub : ℝ) / 10000) * π ≤ 1 * π := mul_le_mul_of_nonneg_right hle1 hπ.le
        _ = π := one_mul π
  have halt := alpha_from_P_lt h0 h1 hmemub hub
  have hagt := alpha_from_P_gt h0 h1 hmemlb hlb
  have hdub : alpha_from_P P * 10000 / π < (ub : ℝ) + 1 / 2 := by
    rw [div_lt_iff hπ]
    have hm := mul_lt_mul_of_pos_right halt (show (0 : ℝ) < 10000 by norm_num)
    have hq : ((ub : ℝ) / 10000 * π + π / 2 ^ 51) * 10000 =
        (ub : ℝ) * π + 10000 * π / 2 ^ 51 := by ring
    rw [hq] at hm
    have hsmall : 10000 * π / 2 ^ 51 < 1 / 2 * π := by
      rw [div_lt_iff (show (0 : ℝ) < 2 ^ 51 by positivity)]
      nlinarith
    nlinarith
  have hdlb : (lb : ℝ) - 1 / 2 < alpha_from_P P * 10000 / π := by
    rw [lt_div_iff hπ]
    have hm := mul_lt_mul_of_pos_right hagt (show (0 : ℝ) < 10000 by norm_num)
    have hq : ((lb : ℝ) / 10000 * π - π / 2 ^ 51) * 10000 =
        (lb : ℝ) * π - 10000 * π / 2 ^ 51 := by ring
    rw [hq] at hm
    have hsmall : 10000 * π / 2 ^ 51 < 1 / 2 * π := by
      rw [div_lt_iff (show (0 : ℝ) < 2 ^ 51 by positivity)]
      nlinarith
    nlinarith
  unfold delay_clamp_round
  exact pyround_clamp_between h50 h95 hdlb hdub

lemma entry0_bounds :
    7900 ≤ delay_clamp_round (alpha_from_P (1 / 20 : ℝ)) 10000 ∧
      delay_clamp_round (alpha_from_P (1 / 20 : ℝ)) 10000 ≤ 8100 := by
  have hlb : (1 / 20 : ℝ) < P_of_alpha ((((7900 : ℤ) : ℝ) / 10000) * π) := by
    have h : (((7900 : ℤ) : ℝ) / 10000) = (79 / 100 : ℝ) := by norm_num
    rw [h]
    exact P_lb_e0
  have hub : P_of_alpha ((((8100 : ℤ) : ℝ) / 10000) * π) < (1 / 20 : ℝ) := by
    have h : (((8100 : ℤ) : ℝ) / 10000) = (81 / 100 : ℝ) := by norm_num
    rw [h]
    exact P_ub_e0
  exact delay_clamp_round_between (by norm_num) (by norm_num) (by norm_num) (by norm_num)
    (by norm_num) hlb hub

lemma entry1_bounds :
    6700 ≤ delay_clamp_round (alpha_from_P (27 / 160 : ℝ)) 10000 ∧
      delay_clamp_round (alpha_from_P (27 / 160 : ℝ)) 10000 ≤ 7000 := by
  have hlb : (27 / 160 : ℝ) < P_of_alpha ((((6700 : ℤ) : ℝ) / 10000) * π) := by
    have h : (((6700 : ℤ) : ℝ) / 10000) = (67 / 100 : ℝ) := by norm_num
    rw [h]
    exact P_lb_e1
  have hub : P_of_alpha ((((7000 : ℤ) : ℝ) / 10000) * π) < (27 / 160 : ℝ) := by
    have h : (((7000 : ℤ) : ℝ) / 10000) = (70 / 100 : ℝ) := by norm_num
    rw [h]
    exact P_ub_e1
  exact delay_clamp_round_between (by norm_num) (by norm_num) (by norm_num) (by norm_num)
    (by norm_num) hlb hub

lemma entry2_bounds :
    6000 ≤ delay_clamp_round (alpha_from_P (46 / 160 : ℝ)) 10000 ∧
      delay_clamp_round (alpha_from_P (46 / 160 : ℝ)) 10000 ≤ 6200 := by
  have hlb : (46 / 160 : ℝ) < P_of_alpha ((((6000 : ℤ) : ℝ) / 10000) * π) := by
    have h : (((6000 : ℤ) : ℝ) / 10000) = (60 / 100 : ℝ) := by norm_num
    rw [h]
    exact P_lb_e2
  have hub : P_of_alpha ((((6200 : ℤ) : ℝ) / 10000) * π) < (46 / 160 : ℝ) := by
    have h : (((6200 : ℤ) : ℝ) / 10000) = (62 / 100 : ℝ) := by norm_num
    rw [h]
    exact P_ub_e2
  exact delay_clamp_round_between (by norm_num) (by norm_num) (by norm_num) (by norm_num)
    (by norm_num) hlb hub

lemma entry3_bounds :
    5400 ≤ delay_clamp_round (alpha_from_P (65 / 160 : ℝ)) 10000 ∧
      delay_clamp_round (alpha_from_P (65 / 160 : ℝ)) 10000 ≤ 5600 := by
  have hlb : (65 / 160 : ℝ) < P_of_alpha ((((5400 : ℤ) : ℝ) / 10000) * π) := by
    have h : (((5400 : ℤ) : ℝ) / 10000) = (54 / 100 : ℝ) := by norm_num
    rw [h]
    exact P_lb_e3
  have hub : P_of_alpha ((((5600 : ℤ) : ℝ) / 10000) * π) < (65 / 160 : ℝ) := by
    have h : (((5600 : ℤ) : ℝ) / 10000) = (56 / 100 : ℝ) := by norm_num
    rw [h]
    exact P_ub_e3
  exact delay_clamp_round_between (by norm_num) (by norm_num) (by norm_num) (by norm_num)
    (by norm_num) hlb hub

lemma entry4_bounds :
    4800 ≤ delay_clamp_round (alpha_from_P (84 / 160 : ℝ)) 10000 ∧
      delay_clamp_round (alpha_from_P (84 / 160 : ℝ)) 10000 ≤ 4950 := by
  have hlb : (84 / 160 : ℝ) < P_of_alpha ((((4800 : ℤ) : ℝ) / 10000) * π) := by
    have h : (((4800 : ℤ) : ℝ) / 10000) = (48 / 100 : ℝ) := by norm_num
    rw [h]
    exact P_lb_e4
  have hub : P_of_alpha ((((4950 : ℤ) : ℝ) / 10000) * π) < (84 / 160 : ℝ) := by
    have h : (((4950 : ℤ) : ℝ) / 10000) = (495 / 1000 : ℝ) := by norm_num
    rw [h]
    exact P_ub_e4
  exact delay_clamp_round_between (by norm_num) (by norm_num) (by norm_num) (by norm_num)
    (by norm_num) hlb hub

lemma entry5_bounds :
    4200 ≤ delay_clamp_round (alpha_from_P (103 / 160 : ℝ)) 10000 ∧
      delay_clamp_round (alpha_from_P (103 / 160 : ℝ)) 10000 ≤ 4350 := by
  have hlb : (103 / 160 : ℝ) < P_of_alpha ((((4200 : ℤ) : ℝ) / 10000) * π) := by
    have h : (((4200 : ℤ) : ℝ) / 10000) = (42 / 100 : ℝ) := by norm_num
    rw [h]
    exact P_lb_e5
  have hub : P_of_alpha ((((4350 : ℤ) : ℝ) / 10000) * π) < (103 / 160 : ℝ) := by
    have h : (((4350 : ℤ) : ℝ) / 10000) = (435 / 1000 : ℝ) := by norm_num
    rw [h]
    exact P_ub_e5
  exact delay_clamp_round_between (by norm_num) (by norm_num) (by norm_num) (by norm_num)
    (by norm_num) hlb hub

lemma entry6_bounds :
    3500 ≤ delay_clamp_round (alpha_from_P (122 / 160 : ℝ)) 10000 ∧
      delay_clamp_round (alpha_from_P (122 / 160 : ℝ)) 10000 ≤ 3700 := by
  have hlb : (122 / 160 : ℝ) < P_of_alpha ((((3500 : ℤ) : ℝ) / 10000) * π) := by
    have h : (((3500 : ℤ) : ℝ) / 10000) = (35 / 100 : ℝ) := by norm_num
    rw [h]
    exact P_lb_e6
  have hub : P_of_alpha ((((3700 : ℤ) : ℝ) / 10000) * π) < (122 / 160 : ℝ) := by
    have h : (((3700 : ℤ) : ℝ) / 10000) = (37 / 100 : ℝ) := by norm_num
    rw [h]
    exact P_ub_e6
  exact delay_clamp_round_between (by norm_num) (by norm_num) (by norm_num) (by norm_num)
    (by norm_num) hlb hub

lemma entry7_bounds :
    2700 ≤ delay_clamp_round (alpha_from_P (141 / 160 : ℝ)) 10000 ∧
      delay_clamp_round (alpha_from_P (141 / 160 : ℝ)) 10000 ≤ 2850 := by
  have hlb : (141 / 160 : ℝ) < P_of_alpha ((((2700 : ℤ) : ℝ) / 10000) * π) := by
    have h : (((2700 : ℤ) : ℝ) / 10000) = (27 / 100 : ℝ) := by norm_num
    rw [h]
    exact P_lb_e7
  have hub : P_of_alpha ((((2850 : ℤ) : ℝ) / 10000) * π) < (141 / 160 : ℝ) := by
    have h : (((2850 : ℤ) : ℝ) / 10000) = (285 / 1000 : ℝ) := by norm_num
    rw [h]
    exact P_ub_e7
  exact delay_clamp_round_between (by norm_num) (by norm_num) (by norm_num) (by norm_num)
    (by norm_num) hlb hub

/-- For target power at least 1 the delay collapses to the minimum: the
bisection returns `π / 2^51`, the unclamped delay `10000/2^51` is far below
`MIN_DELAY_US`, and the clamp raises it to 50. -/
lemma delay_of_one_le_P {Pt : ℝ} (h : 1 ≤ Pt) :
    delay_clamp_round (alpha_from_P Pt) 10000 = 50 := by
  rw [delay_clamp_round, alpha_from_P_of_one_le h]
  have hπ0 : π ≠ 0 := Real.pi_ne_zero
  have hx : π / 2 ^ 51 * 10000 / π = 10000 / 2 ^ 51 := by
    field_simp
    ring
  rw [hx, clamp_us_of_lt (by norm_num)]
  have h50 : (50 : ℝ) = ((50 : ℤ) : ℝ) := by norm_num
  rw [h50, pyround_intCast]

/-- For a non-positive half cycle the unclamped delay is non-positive and the
clamp raises it to 50. -/
lemma delay_of_nonpos_h {Pt h : ℝ} (hh : h ≤ 0) :
    delay_clamp_round (alpha_from_P Pt) h = 50 := by
  rw [delay_clamp_round]
  have hπ : (0 : ℝ) < π := Real.pi_pos
  have hα := (alpha_from_P_mem Pt).1
  have hx : alpha_from_P Pt * h / π ≤ 0 := by
    apply div_nonpos_of_nonpos_of_nonneg _ hπ.le
    exact mul_nonpos_iff.mpr (Or.inl ⟨hα, hh⟩)
  rw [clamp_us_of_lt (by linarith)]
  have h50 : (50 : ℝ) = ((50 : ℤ) : ℝ) := by norm_num
  rw [h50, pyround_intCast]

lemma getD_range_map (f : ℕ → ℤ) {n i : ℕ} (h : i < n) :
    ((List.range n).map f).getD i 0 = f i := by
  rw [List.getD_eq_getElem?_getD, List.getElem?_map, List.getElem?_range h]
  rfl

/-- C1: for `levels = 9`, `min_power = 0.05`, `half_cycle_us = 10000.0` the
level table has 9 entries; level 9 (target `P = 1.0`) is clamped to
`MIN_DELAY_US = 50`; level 1 (target `P = 0.05`) is below `MAX_DELAY_US =
9500` (it is at least 7900, hence strictly above the level-9 delay), and the
sequence is strictly decreasing as the level increases from 1 to 9. -/
theorem C1_level_table_concrete :
    ∃ l : List ℤ, compute_delays 9 (1 / 20) 10000 = some l ∧ l.length = 9 ∧
      l.getD 8 0 = MIN_DELAY_US ∧
      7900 ≤ l.getD 0 0 ∧ l.getD 0 0 < MAX_DELAY_US ∧ l.getD 8 0 < l.getD 0 0 ∧
      ∀ i j : ℕ, i < j → j < 9 → l.getD j 0 < l.getD i 0 := by
  refine ⟨(List.range 9).map fun i : ℕ =>
      delay_clamp_round
        (alpha_from_P ((1 / 20 : ℝ) + (i : ℝ) * ((1 - 1 / 20) / (((9 : ℕ) : ℝ) - 1))))
        10000, ?_, ?_, ?_⟩
  · unfold compute_delays
    rw [if_neg (by norm_num)]
  · simp
  have g : ∀ i : ℕ, i < 9 →
      ((List.range 9).map fun i : ℕ =>
        delay_clamp_round
          (alpha_from_P ((1 / 20 : ℝ) + (i : ℝ) * ((1 - 1 / 20) / (((9 : ℕ) : ℝ) - 1))))
          10000).getD i 0 =
      delay_clamp_round
        (alpha_from_P ((1 / 20 : ℝ) + (i : ℝ) * ((1 - 1 / 20) / (((9 : ℕ) : ℝ) - 1))))
        10000 := fun i hi => getD_range_map _ hi
  have b0 : 7900 ≤ ((List.range 9).map fun i : ℕ =>
      delay_clamp_round
        (alpha_from_P ((1 / 20 : ℝ) + (i : ℝ) * ((1 - 1 / 20) / (((9 : ℕ) : ℝ) - 1))))
        10000).getD 0 0 ∧
      ((List.range 9).map fun i : ℕ =>
      delay_clamp_round
        (alpha_from_P ((1 / 20 : ℝ) + (i : ℝ) * ((1 - 1 / 20) / (((9 : ℕ) : ℝ) - 1))))
        10000).getD 0 0 ≤ 8100 := by
    rw [g 0 (by norm_num)]
    have hP : (1 / 20 : ℝ) + ((0 : ℕ) : ℝ) * ((1 - 1 / 20) / (((9 : ℕ) : ℝ) - 1)) =
        1 / 20 := by norm_num
    rw [hP]
    exact entry0_bounds
  have b1 : 6700 ≤ ((List.range 9).map fun i : ℕ =>
      delay_clamp_round
        (alpha_from_P ((1 / 20 : ℝ) + (i : ℝ) * ((1 - 1 / 20) / (((9 : ℕ) : ℝ) - 1))))
        10000).getD 1 0 ∧
      ((List.range 9).map fun i : ℕ =>
      delay_clamp_round
        (alpha_from_P ((1 / 20 : ℝ) + (i : ℝ) * ((1 - 1 / 20) / (((9 : ℕ) : ℝ) - 1))))
        10000).getD 1 0 ≤ 7000 := by
    rw [g 1 (by norm_num)]
    have hP : (1 / 20 : ℝ) + ((1 : ℕ) : ℝ) * ((1 - 1 / 20) / (((9 : ℕ) : ℝ) - 1)) =
        27 / 160 := by norm_num
    rw [hP]
    exact entry1_bounds
  have b2 : 6000 ≤ ((List.range 9).map fun i : ℕ =>
      delay_clamp_round
        (alpha_from_P ((1 / 20 : ℝ) + (i : ℝ) * ((1 - 1 / 20) / (((9 : ℕ) : ℝ) - 1))))
        10000).getD 2 0 ∧
      ((List.range 9).map fun i : ℕ =>
      delay_clamp_round
        (alpha_from_P ((1 / 20 : ℝ) + (i : ℝ) * ((1 - 1 / 20) / (((9 : ℕ) : ℝ) - 1))))
        10000).getD 2 0 ≤ 6200 := by
    rw [g 2 (by norm_num)]
    have hP : (1 / 20 : ℝ) + ((2 : ℕ) : ℝ) * ((1 - 1 / 20) / (((9 : ℕ) : ℝ) - 1)) =
        46 / 160 := by norm_num
    rw [hP]
    exact entry2_bounds
  have b3 : 5400 ≤ ((List.range 9).map fun i : ℕ =>
      delay_clamp_round
        (alpha_from_P ((1 / 20 : ℝ) + (i : ℝ) * ((1 - 1 / 20) / (((9 : ℕ) : ℝ) - 1))))
        10000).getD 3 0 ∧
      ((List.range 9).map fun i : ℕ =>
      delay_clamp_round
        (alpha_from_P ((1 / 20 : ℝ) + (i : ℝ) * ((1 - 1 / 20) / (((9 : ℕ) : ℝ) - 1))))
        10000).getD 3 0 ≤ 5600 := by
    rw [g 3 (by norm_num)]
    have hP : (1 / 20 : ℝ) + ((3 : ℕ) : ℝ) * ((1 - 1 / 20) / (((9 : ℕ) : ℝ) - 1)) =
        65 / 160 := by norm_num
    rw [hP]
    exact entry3_bounds
  have b4 : 4800 ≤ ((List.range 9).map fun i : ℕ =>
      delay_clamp_round
        (alpha_from_P ((1 / 20 : ℝ) + (i : ℝ) * ((1 - 1 / 20) / (((9 : ℕ) : ℝ) - 1))))
        10000).getD 4 0 ∧
      ((List.range 9).map fun i : ℕ =>
      delay_clamp_round
        (alpha_from_P ((1 / 20 : ℝ) + (i : ℝ) * ((1 - 1 / 20) / (((9 : ℕ) : ℝ) - 1))))
        10000).getD 4 0 ≤ 4950 := by
    rw [g 4 (by norm_num)]
    have hP : (1 / 20 : ℝ) + ((4 : ℕ) : ℝ) * ((1 - 1 / 20) / (((9 : ℕ) : ℝ) - 1)) =
        84 / 160 := by norm_num
    rw [hP]
    exact entry4_bounds
  have b5 : 4200 ≤ ((List.range 9).map fun i : ℕ =>
      delay_clamp_round
        (alpha_from_P ((1 / 20 : ℝ) + (i : ℝ) * ((1 - 1 / 20) / (((9 : ℕ) : ℝ) - 1))))
        10000).getD 5 0 ∧
      ((List.range 9).map fun i : ℕ =>
      delay_clamp_round
        (alpha_from_P ((1 / 20 : ℝ) + (i : ℝ) * ((1 - 1 / 20) / (((9 : ℕ) : ℝ) - 1))))
        10000).getD 5 0 ≤ 4350 := by
    rw [g 5 (by norm_num)]
    have hP : (1 / 20 : ℝ) + ((5 : ℕ) : ℝ) * ((1 - 1 / 20) / (((9 : ℕ) : ℝ) - 1)) =
        103 / 160 := by norm_num
    rw [hP]
    exact entry5_bounds
  have b6 : 3500 ≤ ((List.range 9).map fun i : ℕ =>
      delay_clamp_round
        (alpha_from_P ((1 / 20 : ℝ) + (i : ℝ) * ((1 - 1 / 20) / (((9 : ℕ) : ℝ) - 1))))
        10000).getD 6 0 ∧
      ((List.range 9).map fun i : ℕ =>
      delay_clamp_round
        (alpha_from_P ((1 / 20 : ℝ) + (i : ℝ) * ((1 - 1 / 20) / (((9 : ℕ) : ℝ) - 1))))
        10000).getD 6 0 ≤ 3700 := by
    rw [g 6 (by norm_num)]
    have hP : (1 / 20 : ℝ) + ((6 : ℕ) : ℝ) * ((1 - 1 / 20) / (((9 : ℕ) : ℝ) - 1)) =
        122 / 160 := by norm_num
    rw [hP]
    exact entry6_bounds
  have b7 : 2700 ≤ ((List.range 9).map fun i : ℕ =>
      delay_clamp_round
        (alpha_from_P ((1 / 20 : ℝ) + (i : ℝ) * ((1 - 1 / 20) / (((9 : ℕ) : ℝ) - 1))))
        10000).getD 7 0 ∧
      ((List.range 9).map fun i : ℕ =>
      delay_clamp_round
        (alpha_from_P ((1 / 20 : ℝ) + (i : ℝ) * ((1 - 1 / 20) / (((9 : ℕ) : ℝ) - 1))))
        10000).getD 7 0 ≤ 2850 := by
    rw [g 7 (by norm_num)]
    have hP : (1 / 20 : ℝ) + ((7 : ℕ) : ℝ) * ((1 - 1 / 20) / (((9 : ℕ) : ℝ) - 1)) =
        141 / 160 := by norm_num
    rw [hP]
    exact entry7_bounds
  have b8 : ((List.range 9).map fun i : ℕ =>
      delay_clamp_round
        (alpha_from_P ((1 / 20 : ℝ) + (i : ℝ) * ((1 - 1 / 20) / (((9 : ℕ) : ℝ) - 1))))
        10000).getD 8 0 = 50 := by
    rw [g 8 (by norm_num)]
    have hP : (1 / 20 : ℝ) + ((8 : ℕ) : ℝ) * ((1 - 1 / 20) / (((9 : ℕ) : ℝ) - 1)) =
        1 := by norm_num
    rw [hP]
    exact delay_of_one_le_P le_rfl
  refine ⟨?_, ?_, ?_, ?_, ?_⟩
  · rw [b8]
    rfl
  · exact b0.1
  · have := b0.2
    simp only [MAX_DELAY_US]
    omega
  · omega
  · intro i j hij hj
    interval_cases j <;> interval_cases i <;> omega

lemma percent_entry_zero {h : ℝ} (h1 : 9501 ≤ h) (h2 : h ≤ 10 ^ 9) :
    delay_round_clamp (alpha_from_P 0) h = 9500 := by
  rw [delay_round_clamp, alpha_from_P_zero_target]
  have hπ0 : π ≠ 0 := Real.pi_ne_zero
  have hx : (π - π / 2 ^ 51) * h / π = h - h / 2 ^ 51 := by
    field_simp
    ring
  rw [hx]
  have hb := pyround_bounds (h - h / 2 ^ 51)
  have hsm : h / 2 ^ 51 ≤ 1 / 4 := by
    calc h / 2 ^ 51 ≤ 10 ^ 9 / 2 ^ 51 := by gcongr
      _ ≤ 1 / 4 := by norm_num
  have hgt : (9500 : ℝ) < (pyround (h - h / 2 ^ 51) : ℝ) := by linarith [hb.1]
  have hgtZ : (9500 : ℤ) < pyround (h - h / 2 ^ 51) := by exact_mod_cast hgt
  rw [clamp_int_eq, if_neg (by omega), if_pos (by omega)]

lemma percent_entry_hundred {h : ℝ} (h2 : h ≤ 10 ^ 9) :
    delay_round_clamp (alpha_from_P 1) h = 50 := by
  rw [delay_round_clamp, alpha_from_P_of_one_le le_rfl]
  have hπ0 : π ≠ 0 := Real.pi_ne_zero
  have hx : π / 2 ^ 51 * h / π = h / 2 ^ 51 := by
    field_simp
    ring
  rw [hx]
  have hb := pyround_bounds (h / 2 ^ 51)
  have hsm : h / 2 ^ 51 ≤ 1 / 4 := by
    calc h / 2 ^ 51 ≤ 10 ^ 9 / 2 ^ 51 := by gcongr
      _ ≤ 1 / 4 := by norm_num
  have hlt : (pyround (h / 2 ^ 51) : ℝ) < 50 := by linarith [hb.2]
  have hltZ : pyround (h / 2 ^ 51) < 50 := by exact_mod_cast hlt
  rw [clamp_int_eq, if_pos hltZ]

/-! ### The claims -/

/-- C2: in both pipelines the delay is the round of
`alpha * half_cycle_us / π` followed by the integer clamp to
`[MIN_DELAY_US, MAX_DELAY_US]` — in `compute_delays` the source clamps the
float first and then rounds, but because the clamp bounds are integers the
result coincides with round-then-clamp, so the two pipelines map the same
`alpha` and `half_cycle_us` to the same delay value. -/
theorem C2_round_then_clamp (alpha half_cycle_us : ℝ) :
    delay_clamp_round alpha half_cycle_us =
      clamp_int (pyround (alpha * half_cycle_us / π)) ∧
    delay_round_clamp alpha half_cycle_us =
      clamp_int (pyround (alpha * half_cycle_us / π)) :=
  ⟨delay_clamp_round_eq_round_clamp alpha half_cycle_us, rfl⟩

/-- C3 (counterexample): invalid configurations are not rejected.  For
`levels = 0 < 2` the table generation returns the empty table instead of
failing, and for `min_power = 2 ∉ [0,1)` it also returns a result. -/
theorem C3_counterexample :
    compute_delays 0 (1 / 20) 10000 = some [] ∧
      compute_delays 9 2 10000 ≠ none := by
  constructor
  · unfold compute_delays
    rw [if_neg (by norm_num)]
    simp
  · unfold compute_delays
    rw [if_neg (by norm_num)]
    simp

/-- C3 (amended): `compute_delays` performs no input validation.  Only
`levels = 1` fails, with an uncaught `ZeroDivisionError` (modelled as
`none`), not a clear validation failure; `levels = 0` silently yields an
empty table; `min_power = 2` outside `[0,1)` is accepted and yields nine
entries clamped to 50; a negative `half_cycle_us` is accepted and yields
nine entries clamped to 50. -/
theorem C3_no_validation :
    (∀ mp h : ℝ, compute_delays 1 mp h = none) ∧
    (∀ mp h : ℝ, compute_delays 0 mp h = some []) ∧
    compute_delays 9 2 10000 = some (List.replicate 9 50) ∧
    compute_delays 9 (1 / 20) (-10000) = some (List.replicate 9 50) := by
  refine ⟨fun mp h => by unfold compute_delays; rw [if_pos rfl],
    fun mp h => by unfold compute_delays; rw [if_neg (by norm_num)]; simp, ?_, ?_⟩
  · unfold compute_delays
    rw [if_neg (by norm_num)]
    refine congrArg some (List.eq_replicate.mpr ⟨by simp, ?_⟩)
    intro b hb
    simp only [List.mem_map, List.mem_range] at hb
    obtain ⟨i, hi, rfl⟩ := hb
    apply delay_of_one_le_P
    have hi8 : (i : ℝ) ≤ 8 := by exact_mod_cast Nat.lt_succ_iff.mp hi
    have h9 : (((9 : ℕ) : ℝ) - 1) = 8 := by norm_num
    rw [h9]
    linarith
  · unfold compute_delays
    rw [if_neg (by norm_num)]
    refine congrArg some (List.eq_replicate.mpr ⟨by simp, ?_⟩)
    intro b hb
    simp only [List.mem_map, List.mem_range] at hb
    obtain ⟨i, hi, rfl⟩ := hb
    exact delay_of_nonpos_h (by norm_num)

/-- C5: `alpha_from_P` is exactly 50 iterations of the bisection step
`mid = (lo+hi)/2; if P_of_alpha(mid) > P then lo := mid else hi := mid`
starting from `(0, π)`, with no early exit, returning `(lo+hi)/2`. -/
theorem C5_bisection_structure (P : ℝ) :
    alpha_from_P P =
      (fun s : ℝ × ℝ => (s.1 + s.2) / 2)
        ((fun s : ℝ × ℝ =>
            if P_of_alpha ((s.1 + s.2) / 2) > P then ((s.1 + s.2) / 2, s.2)
            else (s.1, (s.1 + s.2) / 2))^[50] (0, π)) := by
  have key : ∀ n : ℕ, bisectState P n =
      (fun s : ℝ × ℝ =>
        if P_of_alpha ((s.1 + s.2) / 2) > P then ((s.1 + s.2) / 2, s.2)
        else (s.1, (s.1 + s.2) / 2))^[n] (0, π) := by
    intro n
    induction n with
    | zero => rfl
    | succ m ih =>
      rw [Function.iterate_succ_apply', ← ih, bisectState_succ]
      rfl
  unfold alpha_from_P
  rw [key 50]

/-- C6: the round trip through the bisection inverse reproduces the target
power up to the 50-iteration bisection resolution: the error is at most
`2/π · (π/2^50) = 1/2^49 ≈ 1.8e-15`. -/
theorem C6_round_trip {P : ℝ} (h0 : 0 ≤ P) (h1 : P ≤ 1) :
    |P_of_alpha (alpha_from_P P) - P| ≤ 1 / 2 ^ 49 := by
  obtain ⟨hb0, hb1, hb2⟩ := bisect_bounds P 50
  obtain ⟨hbrhi, hbrlo⟩ := bisect_bracket h0 h1 50
  have hw := bisect_width P 50
  have hπ : (0 : ℝ) < π := Real.pi_pos
  have hπ0 : π ≠ 0 := Real.pi_ne_zero
  have hmemlo : (bisectState P 50).1 ∈ Set.Icc (0 : ℝ) π := ⟨hb0, by linarith⟩
  have hmemhi : (bisectState P 50).2 ∈ Set.Icc (0 : ℝ) π := ⟨by linarith, hb2⟩
  have hmemr : alpha_from_P P ∈ Set.Icc (0 : ℝ) π :=
    ⟨(alpha_from_P_mem P).1, (alpha_from_P_mem P).2⟩
  have hrlo : (bisectState P 50).1 ≤ alpha_from_P P := by
    unfold alpha_from_P
    linarith
  have hrhi : alpha_from_P P ≤ (bisectState P 50).2 := by
    unfold alpha_from_P
    linarith
  have hle1 : P_of_alpha (alpha_from_P P) ≤ P_of_alpha (bisectState P 50).1 :=
    P_of_alpha_antitoneOn hmemlo hmemr hrlo
  have hle2 : P_of_alpha (bisectState P 50).2 ≤ P_of_alpha (alpha_from_P P) :=
    P_of_alpha_antitoneOn hmemr hmemhi hrhi
  have hlip := P_of_alpha_sub_le hb1
  rw [hw] at hlip
  have hval : 2 / π * (π / 2 ^ 50) = 1 / 2 ^ 49 := by
    field_simp
    ring
  rw [hval] at hlip
  rw [abs_le]
  constructor <;> linarith

theorem C6_round_trip_witness :
    (0 : ℝ) ≤ 1 / 2 ∧ (1 / 2 : ℝ) ≤ 1 ∧
      |P_of_alpha (alpha_from_P (1 / 2)) - 1 / 2| ≤ 1 / 2 ^ 49 :=
  ⟨by norm_num, by norm_num, C6_round_trip (by norm_num) (by norm_num)⟩

/-- C7: the power function is exactly
`P(alpha) = 1 - alpha/π + sin(2·alpha)/(2·π)`, with `P(0) = 1` and
`P(π) = 0` exactly (hence within any 1e-9 tolerance). -/
theorem C7_power_function :
    (∀ alpha : ℝ, P_of_alpha alpha = 1 - alpha / π + Real.sin (2 * alpha) / (2 * π)) ∧
    P_of_alpha 0 = 1 ∧ P_of_alpha π = 0 ∧
    |P_of_alpha 0 - 1| ≤ 1 / 10 ^ 9 ∧ |P_of_alpha π - 0| ≤ 1 / 10 ^ 9 := by
  refine ⟨fun alpha => rfl, P_of_alpha_zero, P_of_alpha_pi, ?_, ?_⟩
  · rw [P_of_alpha_zero]
    norm_num
  · rw [P_of_alpha_pi]
    norm_num

/-- C8: on `[0, π]` the power function stays within `[0, 1]` and is
monotonically non-increasing, indeed strictly decreasing on the interval. -/
theorem C8_power_monotone :
    (∀ a : ℝ, a ∈ Set.Icc 0 π → 0 ≤ P_of_alpha a ∧ P_of_alpha a ≤ 1) ∧
    (∀ a1 a2 : ℝ, a1 ∈ Set.Icc 0 π → a2 ∈ Set.Icc 0 π → a1 < a2 →
      P_of_alpha a2 ≤ P_of_alpha a1) ∧
    StrictAntiOn P_of_alpha (Set.Icc 0 π) :=
  ⟨fun _ ha => P_of_alpha_mem_Icc ha,
   fun _ _ h1 h2 hlt => (P_of_alpha_strictAntiOn h1 h2 hlt).le,
   P_of_alpha_strictAntiOn⟩

/-- C10: for every real target power `P` — also outside `[0,1]` — the
bisection state keeps `0 ≤ lo ≤ hi ≤ π` at every iteration, and the returned
angle `(lo+hi)/2` therefore stays in `[0, π]`. -/
theorem C10_alpha_in_range (P : ℝ) :
    (∀ k : ℕ, 0 ≤ (bisectState P k).1 ∧ (bisectState P k).1 ≤ (bisectState P k).2 ∧
      (bisectState P k).2 ≤ π) ∧
    0 ≤ alpha_from_P P ∧ alpha_from_P P ≤ π :=
  ⟨fun k => bisect_bounds P k, alpha_from_P_mem P⟩

/-- C4 (amended): for every `levels ≥ 2`, `min_power ∈ (0,1)` and
`half_cycle_us > 0` the level table has length `levels`, every value lies in
`[MIN_DELAY_US, MAX_DELAY_US]`, and the values are non-increasing (not
non-decreasing) as the level increases: a higher level means more power, a
smaller firing angle and hence a smaller delay. -/
theorem C4_level_table_shape {levels : ℕ} {min_power half_cycle_us : ℝ}
    (hl : 2 ≤ levels) (hmp0 : 0 < min_power) (hmp1 : min_power < 1)
    (hh : 0 < half_cycle_us) :
    ∃ l : List ℤ, compute_delays levels min_power half_cycle_us = some l ∧
      l.length = levels ∧
      (∀ i : ℕ, i < l.length →
        MIN_DELAY_US ≤ l.getD i 0 ∧ l.getD i 0 ≤ MAX_DELAY_US) ∧
      (∀ i j : ℕ, i ≤ j → j < l.length → l.getD j 0 ≤ l.getD i 0) := by
  refine ⟨(List.range levels).map fun i : ℕ =>
      delay_clamp_round
        (alpha_from_P (min_power + (i : ℝ) * ((1 - min_power) / ((levels : ℝ) - 1))))
        half_cycle_us, ?_, by simp, ?_, ?_⟩
  · unfold compute_delays
    rw [if_neg (by omega)]
  · intro i hi
    have hi' : i < levels := by simpa using hi
    rw [getD_range_map _ hi']
    have := delay_clamp_round_mem
      (alpha_from_P (min_power + (i : ℝ) * ((1 - min_power) / ((levels : ℝ) - 1))))
      half_cycle_us
    simpa [MIN_DELAY_US, MAX_DELAY_US] using this
  · intro i j hij hj
    have hj' : j < levels := by simpa using hj
    have hi' : i < levels := lt_of_le_of_lt hij hj'
    rw [getD_range_map _ hi', getD_range_map _ hj']
    have hstep : 0 ≤ (1 - min_power) / ((levels : ℝ) - 1) := by
      apply div_nonneg (by linarith)
      have : (2 : ℝ) ≤ (levels : ℝ) := by exact_mod_cast hl
      linarith
    have hPij : min_power + (i : ℝ) * ((1 - min_power) / ((levels : ℝ) - 1)) ≤
        min_power + (j : ℝ) * ((1 - min_power) / ((levels : ℝ) - 1)) := by
      have hcast : (i : ℝ) ≤ (j : ℝ) := by exact_mod_cast hij
      nlinarith
    have halpha := alpha_from_P_antitone hPij
    exact delay_clamp_round_mono hh.le halpha

theorem C4_level_table_shape_witness :
    2 ≤ 9 ∧ (0 : ℝ) < 1 / 20 ∧ (1 / 20 : ℝ) < 1 ∧ (0 : ℝ) < 10000 ∧
      (∃ l : List ℤ, compute_delays 9 (1 / 20) 10000 = some l ∧
        l.length = 9 ∧
        (∀ i : ℕ, i < l.length →
          MIN_DELAY_US ≤ l.getD i 0 ∧ l.getD i 0 ≤ MAX_DELAY_US) ∧
        (∀ i j : ℕ, i ≤ j → j < l.length → l.getD j 0 ≤ l.getD i 0)) :=
  ⟨by norm_num, by norm_num, by norm_num, by norm_num,
    C4_level_table_shape (by norm_num) (by norm_num) (by norm_num) (by norm_num)⟩

/-- C4 (counterexample): at `levels = 9`, `min_power = 0.05`,
`half_cycle_us = 10000` — a configuration satisfying every hypothesis of the
claim — the first entry is strictly larger than the ninth, so the level
table is not non-decreasing in the level. -/
theorem C4_counterexample :
    2 ≤ 9 ∧ (0 : ℝ) < 1 / 20 ∧ (1 / 20 : ℝ) < 1 ∧ (0 : ℝ) < 10000 ∧
      ∃ l : List ℤ, compute_delays 9 (1 / 20) 10000 = some l ∧
        8 < l.length ∧ l.getD 8 0 < l.getD 0 0 := by
  refine ⟨by norm_num, by norm_num, by norm_num, by norm_num,
    (List.range 9).map fun i : ℕ =>
      delay_clamp_round
        (alpha_from_P ((1 / 20 : ℝ) + (i : ℝ) * ((1 - 1 / 20) / (((9 : ℕ) : ℝ) - 1))))
        10000, ?_, by simp, ?_⟩
  · unfold compute_delays
    rw [if_neg (by norm_num)]
  · rw [getD_range_map _ (by norm_num : (8 : ℕ) < 9),
      getD_range_map _ (by norm_num : (0 : ℕ) < 9)]
    have hP8 : (1 / 20 : ℝ) + ((8 : ℕ) : ℝ) * ((1 - 1 / 20) / (((9 : ℕ) : ℝ) - 1)) = 1 := by
      norm_num
    have hP0 : (1 / 20 : ℝ) + ((0 : ℕ) : ℝ) * ((1 - 1 / 20) / (((9 : ℕ) : ℝ) - 1)) =
        1 / 20 := by norm_num
    rw [hP8, hP0, delay_of_one_le_P le_rfl]
    have := entry0_bounds.1
    omega

/-- C9 (amended): for every `half_cycle_us > 0` the percent table has
exactly 101 entries, entry `p` using target power `P = p/100`.  When
`half_cycle_us` lies between 9501 and 10^9 µs (in particular at the default
10000), entry 0 (`P = 0`, `alpha ≈ π`, unclamped delay `≈ half_cycle_us`) is
clamped down to `MAX_DELAY_US` and entry 100 (`P = 1`, `alpha ≈ 0`,
delay `≈ 0`) is clamped up to `MIN_DELAY_US`. -/
theorem C9_percent_table {half_cycle_us : ℝ} (hh : 0 < half_cycle_us) :
    (delay_from_percent_table half_cycle_us).length = 101 ∧
    (∀ p : ℕ, p < 101 → (delay_from_percent_table half_cycle_us).getD p 0 =
      delay_round_clamp (alpha_from_P ((p : ℝ) / 100)) half_cycle_us) ∧
    (9501 ≤ half_cycle_us → half_cycle_us ≤ 10 ^ 9 →
      (delay_from_percent_table half_cycle_us).getD 0 0 = MAX_DELAY_US ∧
      (delay_from_percent_table half_cycle_us).getD 100 0 = MIN_DELAY_US) := by
  refine ⟨by simp [delay_from_percent_table], ?_, ?_⟩
  · intro p hp
    unfold delay_from_percent_table
    rw [getD_range_map _ hp]
  · intro h1 h2
    constructor
    · unfold delay_from_percent_table
      rw [getD_range_map _ (by norm_num : (0 : ℕ) < 101)]
      have hc : (((0 : ℕ) : ℝ) / 100) = 0 := by norm_num
      rw [hc, percent_entry_zero h1 h2]
      rfl
    · unfold delay_from_percent_table
      rw [getD_range_map _ (by norm_num : (100 : ℕ) < 101)]
      have hc : (((100 : ℕ) : ℝ) / 100) = 1 := by norm_num
      rw [hc, percent_entry_hundred h2]
      rfl

theorem C9_percent_table_witness :
    (0 : ℝ) < 10000 ∧
      ((delay_from_percent_table 10000).length = 101 ∧
      (∀ p : ℕ, p < 101 → (delay_from_percent_table 10000).getD p 0 =
        delay_round_clamp (alpha_from_P ((p : ℝ) / 100)) 10000) ∧
      ((9501 : ℝ) ≤ 10000 → (10000 : ℝ) ≤ 10 ^ 9 →
        (delay_from_percent_table 10000).getD 0 0 = MAX_DELAY_US ∧
        (delay_from_percent_table 10000).getD 100 0 = MIN_DELAY_US)) :=
  ⟨by norm_num, C9_percent_table (by norm_num)⟩

/-- C9 (counterexample): at `half_cycle_us = 8000 > 0` entry 0 of the
percent table is 8000, not `MAX_DELAY_US = 9500`: the claim's clamping of
entry 0 down to the maximum does not hold for every positive half cycle. -/
theorem C9_counterexample :
    (0 : ℝ) < 8000 ∧ (delay_from_percent_table 8000).getD 0 0 = 8000 ∧
      (8000 : ℤ) ≠ MAX_DELAY_US := by
  refine ⟨by norm_num, ?_, by decide⟩
  unfold delay_from_percent_table
  rw [getD_range_map _ (by norm_num : (0 : ℕ) < 101)]
  have hc : (((0 : ℕ) : ℝ) / 100) = 0 := by norm_num
  rw [hc, delay_round_clamp, alpha_from_P_zero_target]
  have hπ0 : π ≠ 0 := Real.pi_ne_zero
  have hx : (π - π / 2 ^ 51) * 8000 / π = 8000 - 8000 / 2 ^ 51 := by
    field_simp
    ring
  rw [hx]
  have hb := pyround_bounds ((8000 : ℝ) - 8000 / 2 ^ 51)
  have hsm : (8000 : ℝ) / 2 ^ 51 ≤ 1 / 4 := by norm_num
  have hgt : (7999 : ℝ) < (pyround ((8000 : ℝ) - 8000 / 2 ^ 51) : ℝ) := by
    linarith [hb.1]
  have hlt : (pyround ((8000 : ℝ) - 8000 / 2 ^ 51) : ℝ) < 8001 := by
    linarith [hb.2]
  have hgtZ : (7999 : ℤ) < pyround ((8000 : ℝ) - 8000 / 2 ^ 51) := by exact_mod_cast hgt
  have hltZ : pyround ((8000 : ℝ) - 8000 / 2 ^ 51) < 8001 := by exact_mod_cast hlt
  have heq : pyround ((8000 : ℝ) - 8000 / 2 ^ 51) = 8000 := by omega
  rw [heq, clamp_int_eq, if_neg (by omega), if_neg (by omega)]
